import Mathlib

/-!
Verification of the quickfix field generator (`gen/generate-fields/main.go`)
and the generated SecurityListUpdateReport message wrapper.

The embedding models:
* the data-dictionary field model (`FieldType`, `Enum`), with Go maps
  rendered as association lists carrying an explicit iteration order;
* the enum-merge loop of `main` (lines 247-273 of main.go);
* the type mapper `quickfixType` and `quickfixValueType`;
* the three template emitters (tag, field, enum) as text renderers over
  `List Char`;
* the driver's exit-code behaviour (usage exit and error accumulation);
* the generated accessor pair of the SecurityListUpdateReport wrapper.
-/

/-- A dictionary enum entry: a (value, description) pair. -/
structure Enum where
  value : String
  description : String
deriving DecidableEq

/-- A dictionary field type: name, numeric tag, declared dictionary type and
an optional enum set.  The Go `map[string]Enum` is modelled as an association
list from the enum value to the entry, in the map's iteration order; `none`
models a nil map. -/
structure FieldType where
  name : String
  tag : Nat
  type : String
  enums : Option (List (String × Enum))
deriving DecidableEq

/-- Association-list lookup, modelling Go map indexing `m[k]`. -/
def assocFind {κ α : Type} [DecidableEq κ] (k : κ) : List (κ × α) → Option α
  | [] => none
  | p :: ps => if p.1 = k then some p.2 else assocFind k ps

/-- Association-list update, modelling Go map assignment `m[k] = v`. -/
def setEntry {κ α : Type} [DecidableEq κ] : List (κ × α) → κ → α → List (κ × α)
  | [], k, v => [(k, v)]
  | p :: ps, k, v => if p.1 = k then (k, v) :: ps else p :: setEntry ps k v

/-- Keys of an association list. -/
def keysOf {κ α : Type} (l : List (κ × α)) : List κ := l.map Prod.fst

/-- Descriptions of an enum association list. -/
def descsOf (l : List (String × Enum)) : List String :=
  l.map (fun p => p.2.description)

/-- One iteration of the enum-copy loop of `main` (main.go lines 254-269):
an old entry is copied into the accumulating new enum set only when its
value is absent and no entry of the accumulator carries its description. -/
def mergeEnumStep (acc : List (String × Enum)) (p : String × Enum) :
    List (String × Enum) :=
  match assocFind p.1 acc with
  | some _ => acc
  | none =>
    if acc.any (fun q => q.2.description == p.2.description) then acc
    else acc ++ [p]

/-- The enum-merge loop of `main`: every entry of the old enum set is offered
to the new enum set in iteration order. -/
def mergeEnums (newEs oldEs : List (String × Enum)) : List (String × Enum) :=
  oldEs.foldl mergeEnumStep newEs

/-- The enum association list of a field; a nil map iterates as empty. -/
def enumEntries (f : FieldType) : List (String × Enum) := f.enums.getD []

/-- The enum augmentation of the field-merge loop (main.go lines 248-270):
when the name was already bound, the new definition is first given an empty
enum set when it has none and the old one is non-empty, then every old enum
entry is offered to it; when the name is new the definition is unchanged. -/
def mergedField (oldOpt : Option FieldType) (f : FieldType) : FieldType :=
  match oldOpt with
  | none => f
  | some oldField =>
    match f.enums with
    | none =>
      if 0 < (enumEntries oldField).length then
        { f with enums := some (mergeEnums [] (enumEntries oldField)) }
      else f
    | some es => { f with enums := some (mergeEnums es (enumEntries oldField)) }

/-- One iteration of the field-merge loop of `main` (main.go lines 247-273):
the (possibly enum-augmented) new definition replaces the stored one. -/
def mergeStep (m : List (String × FieldType)) (f : FieldType) :
    List (String × FieldType) :=
  setEntry m f.name (mergedField (assocFind f.name m) f)

/-- The field-type map built by `main` from the concatenated field lists of
the dictionary sources, processed in argument order. -/
def buildMap (fs : List FieldType) : List (String × FieldType) :=
  fs.foldl mergeStep []

/-- The value-type mapper `quickfixValueType` of main.go (lines 37-52): a Go
switch with a named result that is left at its zero value (the empty string)
when no case matches. -/
def quickfixValueType (quickfixType : String) : String :=
  match quickfixType with
  | "FIXString" => "string"
  | "FIXBoolean" => "bool"
  | "FIXInt" => "int"
  | "FIXUTCTimestamp" => "time.Time"
  | "FIXFloat" => "float64"
  | _ => ""

/-- The switch body of `quickfixType` of main.go (lines 54-132), as a function
of the field's declared type name and tag (the only data the switch reads). -/
def quickfixTypeCore (ty : String) (tag : Nat) : Except String String :=
  match ty with
  | "MULTIPLESTRINGVALUE" | "MULTIPLEVALUESTRING" | "MULTIPLECHARVALUE"
  | "CHAR" | "CURRENCY" | "DATA" | "MONTHYEAR" | "LOCALMKTDATE" | "TIME"
  | "DATE" | "EXCHANGE" | "LANGUAGE" | "XMLDATA" | "COUNTRY" | "UTCTIMEONLY"
  | "UTCDATE" | "UTCDATEONLY" | "TZTIMEONLY" | "TZTIMESTAMP" | "STRING" =>
    .ok "FIXString"
  | "BOOLEAN" => .ok "FIXBoolean"
  | "LENGTH" | "DAYOFMONTH" | "NUMINGROUP" | "SEQNUM" | "INT" => .ok "FIXInt"
  | "UTCTIMESTAMP" => .ok "FIXUTCTimestamp"
  | "QTY" | "QUANTITY" | "AMT" | "PRICE" | "PRICEOFFSET" | "PERCENTAGE"
  | "FLOAT" => .ok "FIXFloat"
  | _ => .error ("Unknown type \x27" ++ ty ++ "\x27 for tag \x27" ++ Nat.repr tag ++ "\x27\n")

/-- The type mapper `quickfixType` applied to a field. -/
def quickfixType (f : FieldType) : Except String String :=
  quickfixTypeCore f.type f.tag

/-- The dictionary type names recognized by the switch of `quickfixType`. -/
def recognizedTypeNames : List String :=
  ["MULTIPLESTRINGVALUE", "MULTIPLEVALUESTRING", "MULTIPLECHARVALUE",
   "CHAR", "CURRENCY", "DATA", "MONTHYEAR", "LOCALMKTDATE", "TIME",
   "DATE", "EXCHANGE", "LANGUAGE", "XMLDATA", "COUNTRY", "UTCTIMEONLY",
   "UTCDATE", "UTCDATEONLY", "TZTIMEONLY", "TZTIMESTAMP", "STRING",
   "BOOLEAN",
   "LENGTH", "DAYOFMONTH", "NUMINGROUP", "SEQNUM", "INT",
   "UTCTIMESTAMP",
   "QTY", "QUANTITY", "AMT", "PRICE", "PRICEOFFSET", "PERCENTAGE", "FLOAT"]

/-- The base-type names with a non-empty case in `quickfixValueType`. -/
def valueTypeNames : List String :=
  ["FIXString", "FIXBoolean", "FIXInt", "FIXUTCTimestamp", "FIXFloat"]

-- ## The emitters, as text renderers over `List Char`

/-- Characters of a string literal. -/
def str (s : String) : List Char := s.data

/-- The characters of the text "func New", the head of every constructor
declaration line emitted by the field template. -/
def funcNewChars : List Char := ['f', 'u', 'n', 'c', ' ', 'N', 'e', 'w']

/-- Constructor line of the field template's non-timestamp branch
(main.go line 202). -/
def ctorLine (n vt : List Char) : List Char :=
  funcNewChars ++ (n ++ (str "(val " ++ (vt ++ (str ") " ++
    (n ++ str "Field \x7b")))))

/-- Millisecond-precision constructor line of the field template's
UTC-timestamp branch (main.go line 191). -/
def tsCtorLine (n : List Char) : List Char :=
  funcNewChars ++ (n ++ (str "(val time.Time) " ++ (n ++ str "Field \x7b")))

/-- Whole-second constructor line of the field template's UTC-timestamp
branch (main.go line 196). -/
def tsNoMillisCtorLine (n : List Char) : List Char :=
  funcNewChars ++ (n ++ (str "NoMillis(val time.Time) " ++
    (n ++ str "Field \x7b")))

/-- The lines every per-field block of the field template starts with
(main.go lines 183-187): the type comment, the wrapper struct and the Tag
method. -/
def blockHeadLines (f : FieldType) (bt : String) : List (List Char) :=
  ['/' :: '/' :: (f.name.data ++ str "Field is a " ++ f.type.data ++
      str " field"),
   't' :: 'y' :: 'p' :: 'e' :: ' ' :: (f.name.data ++
      str "Field struct \x7b quickfix." ++ bt.data ++ str " \x7d"),
   [],
   '/' :: '/' :: (str "Tag returns tag." ++ f.name.data ++ str " (" ++
      (Nat.repr f.tag).data ++ str ")"),
   'f' :: 'u' :: 'n' :: 'c' :: ' ' :: '(' :: (str "f " ++ f.name.data ++
      str "Field) Tag() quickfix.Tag \x7b return tag." ++ f.name.data ++
      str " \x7d"),
   []]

/-- The UTC-timestamp branch of the field template (main.go lines 189-199):
two constructors, with and without sub-second precision. -/
def tsBlockLines (f : FieldType) (bt : String) : List (List Char) :=
  blockHeadLines f bt ++
    [[' '],
     '/' :: '/' :: (str "New" ++ f.name.data ++ str " returns a new " ++
        f.name.data ++ str "Field initialized with val"),
     tsCtorLine f.name.data,
     '\t' :: (str "return " ++ f.name.data ++
        str "Field\x7b quickfix.FIXUTCTimestamp\x7b Time: val \x7d \x7d "),
     ['\x7d'],
     [],
     '/' :: '/' :: (str "New" ++ f.name.data ++
        str "NoMillis returns a new " ++ f.name.data ++
        str "Field initialized with val without millisecs"),
     tsNoMillisCtorLine f.name.data,
     '\t' :: (str "return " ++ f.name.data ++
        str "Field\x7b quickfix.FIXUTCTimestamp\x7b Time: val, NoMillis: true \x7d \x7d "),
     ['\x7d'],
     []]

/-- The non-timestamp branch of the field template (main.go lines 200-204):
one constructor taking the mapped value type. -/
def plainBlockLines (f : FieldType) (bt : String) : List (List Char) :=
  blockHeadLines f bt ++
    ['/' :: '/' :: (str "New" ++ f.name.data ++ str " returns a new " ++
        f.name.data ++ str "Field initialized with val"),
     ctorLine f.name.data (quickfixValueType bt).data,
     '\t' :: (str "return " ++ f.name.data ++ str "Field\x7b quickfix." ++
        bt.data ++ str "(val) \x7d"),
     ['\x7d']]

/-- The per-field block of the field template (main.go lines 181-205), as a
list of output lines.  Executing the template evaluates `quickfixType` on the
field; a mapping error aborts the emitter. -/
def fieldBlockLines (f : FieldType) : Except String (List (List Char)) :=
  match quickfixType f with
  | .error e => .error e
  | .ok bt =>
    if bt = "FIXUTCTimestamp" then .ok (tsBlockLines f bt)
    else .ok (plainBlockLines f bt)

/-- The per-field line of the tag template (main.go line 167). -/
def tagLineChars (f : FieldType) : List Char :=
  f.name.data ++ str " quickfix.Tag =  " ++ (Nat.repr f.tag).data

/-- The tag template output (main.go lines 161-170) for a field list. -/
def genTagsChars (fts : List FieldType) : List Char :=
  str "\npackage tag\nimport(\"github.com/quickfixgo/quickfix\")\n\nconst (" ++
    (fts.map (fun f => '\n' :: tagLineChars f)).flatten ++ str "\n)\n\t"

/-- One enum constant of the enum template (main.go line 215); the emitted
value is the entry's `Value` field. -/
def enumEntryChars (n : List Char) (p : String × Enum) : List Char :=
  '\n' :: (n ++ ('_' :: (p.2.description.data ++ (str " = \"" ++
    (p.2.value.data ++ str "\"")))))

/-- The enum template's per-field section (main.go lines 210-218): a nil or
empty enum map is falsy in a template `if` and emits only the iteration
newline; otherwise the enum constants are emitted in the enum map's
iteration order. -/
def enumFieldChars (f : FieldType) : List Char :=
  match f.enums with
  | none => str "\n"
  | some [] => str "\n"
  | some es =>
    str "\n \n//Enum values for " ++ f.name.data ++ str "\nconst(\n" ++
      (es.map (enumEntryChars f.name.data)).flatten ++ str "\n)\n"

/-- The enum template output (main.go lines 208-219) for a field list. -/
def genEnumsChars (fts : List FieldType) : List Char :=
  str "\npackage enum\n" ++ (fts.map enumFieldChars).flatten ++ str "\n\t"

-- ## Sorting (main.go lines 222-227 and 283)

instance fieldNameLeDecidable :
    DecidableRel (fun a b : FieldType => a.name ≤ b.name) :=
  fun a b => inferInstanceAs (Decidable (a.name ≤ b.name))

instance fieldNameLeTotal :
    IsTotal FieldType (fun a b : FieldType => a.name ≤ b.name) :=
  ⟨fun a b => le_total a.name b.name⟩

instance fieldNameLeTrans :
    IsTrans FieldType (fun a b : FieldType => a.name ≤ b.name) :=
  ⟨fun _ _ _ h1 h2 => le_trans h1 h2⟩

instance fieldNameLtAntisymm :
    IsAntisymm FieldType (fun a b : FieldType => a.name < b.name) :=
  ⟨fun _ _ h1 h2 => absurd h1 (lt_asymm h2)⟩

instance fieldNameLtTrans :
    IsTrans FieldType (fun a b : FieldType => a.name < b.name) :=
  ⟨fun _ _ _ h1 h2 => lt_trans h1 h2⟩

/-- `sort.Sort(byFieldName(fieldTypes))` of main.go: sort the field list by
field name. -/
def sortFields (fts : List FieldType) : List FieldType :=
  List.insertionSort (fun a b : FieldType => a.name ≤ b.name) fts

-- ## Driver exit behaviour (main.go lines 21-25 and 285-289)

/-- The exit code of `usage()` (main.go line 24). -/
def usageExitCode : Nat := 2

/-- Modelled from the spec: `gen.ErrorHandler` is not under src/.  Spec §9:
a result-accumulator that collects failures from independent emission steps
and reports a combined non-zero status rather than aborting after the first
failure. -/
structure ErrorHandler where
  returnCode : Nat := 0
  errors : List String := []

/-- Modelled from the spec: `Handle` records a failure (non-zero return
code, error collected) and ignores a `nil` error. -/
def ErrorHandler.handle (h : ErrorHandler) (e : Option String) : ErrorHandler :=
  match e with
  | none => h
  | some msg => { returnCode := 1, errors := h.errors ++ [msg] }

/-- The driver's exit behaviour (main.go lines 229-290): with no dictionary
argument, `usage()` exits with the usage code; otherwise the three emitters
run and their outcomes (parameters here, since `gen.WriteFile` does IO) are
all offered to the error handler, whose return code becomes the exit code. -/
def runGenerator (args : List String) (tagErr fieldErr enumErr : Option String) :
    Nat × List String :=
  if args = [] then (usageExitCode, [])
  else
    let h : ErrorHandler := {}
    let h := h.handle tagErr
    let h := h.handle fieldErr
    let h := h.handle enumErr
    (h.returnCode, h.errors)

-- ## The SecurityListUpdateReport wrapper (src/unnamed/part_000)

/-- The reject error of the external engine's accessor error channel. -/
inductive MessageRejectError where
  | fieldAbsent (tag : Nat)
deriving DecidableEq

/-- The generated SecurityReportID field wrapper; its zero value holds the
empty string. -/
structure SecurityReportIDField where
  value : String
deriving DecidableEq

/-- Modelled from the spec: the generated tag constant `tag.SecurityReportID`;
the concrete number plays no role in the accessor equivalence. -/
def securityReportIDTag : Nat := 964

/-- A message with a body, modelled as a tag-keyed association list. -/
structure Message where
  body : List (Nat × String)

/-- Modelled from the spec: the external engine's `Body.Get` — looks up the
field's tag in the message body; when absent it returns a reject error, when
present it populates the provided field wrapper. -/
def bodyGet (body : List (Nat × String)) (f : SecurityReportIDField) :
    SecurityReportIDField × Option MessageRejectError :=
  match assocFind securityReportIDTag body with
  | none => (f, some (.fieldAbsent securityReportIDTag))
  | some v => ({ value := v }, none)

/-- From part_000 lines 23-25: `GetSecurityReportID` reads a SecurityReportID
into the provided field wrapper. -/
def Message.GetSecurityReportID (m : Message) (f : SecurityReportIDField) :
    SecurityReportIDField × Option MessageRejectError :=
  bodyGet m.body f

/-- From part_000 lines 16-20: `SecurityReportID` allocates a fresh
zero-valued field wrapper, runs `m.Body.Get` on it and returns it together
with the error. -/
def Message.SecurityReportID (m : Message) :
    SecurityReportIDField × Option MessageRejectError :=
  let f : SecurityReportIDField := { value := "" }
  let r := bodyGet m.body f
  (r.1, r.2)

/-- Follows the spec's words (claim C9): the pair whose first component is a
freshly zero-initialized wrapper after `m.GetSecurityReportID` has run on it
and whose second component is the value `m.GetSecurityReportID` returns. -/
def securityReportIDViaGet (m : Message) :
    SecurityReportIDField × Option MessageRejectError :=
  let f0 : SecurityReportIDField := { value := "" }
  ((m.GetSecurityReportID f0).1, (m.GetSecurityReportID f0).2)

-- ## Association-list lemmas

theorem assocFind_append_some {κ α : Type} [DecidableEq κ] {k : κ}
    {l1 l2 : List (κ × α)} {v : α} (h : assocFind k l1 = some v) :
    assocFind k (l1 ++ l2) = some v := by
  induction l1 with
  | nil => simp [assocFind] at h
  | cons p ps ih =>
    simp only [assocFind, List.cons_append] at h ⊢
    split at h
    · simp_all
    · rw [if_neg (by assumption)]
      exact ih h

theorem assocFind_append_none {κ α : Type} [DecidableEq κ] {k : κ}
    {l1 : List (κ × α)} (l2 : List (κ × α)) (h : assocFind k l1 = none) :
    assocFind k (l1 ++ l2) = assocFind k l2 := by
  induction l1 with
  | nil => simp
  | cons p ps ih =>
    simp only [assocFind, List.cons_append] at h ⊢
    split at h
    · exact absurd h (by simp)
    · rw [if_neg (by assumption)]
      exact ih h

theorem assocFind_eq_none_iff {κ α : Type} [DecidableEq κ] {k : κ}
    {l : List (κ × α)} : assocFind k l = none ↔ k ∉ keysOf l := by
  induction l with
  | nil => simp [assocFind, keysOf]
  | cons p ps ih =>
    simp only [assocFind, keysOf, List.map_cons, List.mem_cons]
    split
    · simp_all
    · simp only [ih, keysOf]
      constructor
      · intro h hk
        rcases hk with hk | hk
        · exact (by assumption : ¬ p.1 = k) hk.symm
        · exact h hk
      · intro h hk
        exact h (Or.inr hk)

theorem assocFind_of_mem_nodup {κ α : Type} [DecidableEq κ]
    {l : List (κ × α)} {p : κ × α} (hk : (keysOf l).Nodup) (hm : p ∈ l) :
    assocFind p.1 l = some p.2 := by
  induction l with
  | nil => cases hm
  | cons q qs ih =>
    simp only [keysOf, List.map_cons, List.nodup_cons] at hk
    rcases List.mem_cons.mp hm with rfl | hm
    · simp [assocFind]
    · have hne : q.1 ≠ p.1 := by
        intro he
        exact hk.1 (he ▸ (List.mem_map.mpr ⟨p, hm, rfl⟩))
      simp only [assocFind, if_neg hne]
      exact ih hk.2 hm

theorem mem_of_assocFind_some {κ α : Type} [DecidableEq κ]
    {l : List (κ × α)} {k : κ} {v : α} (h : assocFind k l = some v) :
    (k, v) ∈ l := by
  induction l with
  | nil => simp [assocFind] at h
  | cons p ps ih =>
    simp only [assocFind] at h
    split at h
    · rename_i hk
      injection h with hv
      subst hk
      subst hv
      exact List.mem_cons_self _ _
    · exact List.mem_cons_of_mem _ (ih h)

theorem assocFind_setEntry_self {κ α : Type} [DecidableEq κ]
    (m : List (κ × α)) (k : κ) (v : α) :
    assocFind k (setEntry m k v) = some v := by
  induction m with
  | nil => simp [setEntry, assocFind]
  | cons p ps ih =>
    simp only [setEntry]
    split
    · simp [assocFind]
    · simp only [assocFind, if_neg (by assumption)]
      exact ih

theorem assocFind_setEntry_other {κ α : Type} [DecidableEq κ]
    (m : List (κ × α)) (k : κ) (v : α) (n : κ) (h : k ≠ n) :
    assocFind n (setEntry m k v) = assocFind n m := by
  induction m with
  | nil => simp [setEntry, assocFind, h]
  | cons p ps ih =>
    simp only [setEntry]
    split
    · have : p.1 = k := by assumption
      simp [assocFind, this, h]
    · simp only [assocFind]
      split
      · rfl
      · exact ih

-- ## Enum-merge fold lemmas

theorem mergeEnumStep_cases (acc : List (String × Enum)) (p : String × Enum) :
    mergeEnumStep acc p = acc ∨ mergeEnumStep acc p = acc ++ [p] := by
  unfold mergeEnumStep
  split
  · exact Or.inl rfl
  · split
    · exact Or.inl rfl
    · exact Or.inr rfl

theorem foldl_mergeEnumStep_prefix (ps : List (String × Enum)) :
    ∀ acc, ∃ rest, ps.foldl mergeEnumStep acc = acc ++ rest := by
  induction ps with
  | nil => exact fun acc => ⟨[], by simp⟩
  | cons r rs ih =>
    intro acc
    rcases mergeEnumStep_cases acc r with h | h
    · rcases ih (mergeEnumStep acc r) with ⟨rest, hrest⟩
      exact ⟨rest, by simpa [List.foldl_cons, h] using hrest⟩
    · rcases ih (mergeEnumStep acc r) with ⟨rest, hrest⟩
      refine ⟨[r] ++ rest, ?_⟩
      rw [List.foldl_cons, hrest, h, List.append_assoc]

theorem foldl_mergeEnumStep_find_some {k : String} {v : Enum}
    (ps : List (String × Enum)) (acc : List (String × Enum))
    (h : assocFind k acc = some v) :
    assocFind k (ps.foldl mergeEnumStep acc) = some v := by
  rcases foldl_mergeEnumStep_prefix ps acc with ⟨rest, hrest⟩
  rw [hrest]
  exact assocFind_append_some h

theorem foldl_mergeEnumStep_mem_mono {q : String × Enum}
    (ps : List (String × Enum)) (acc : List (String × Enum)) (h : q ∈ acc) :
    q ∈ ps.foldl mergeEnumStep acc := by
  rcases foldl_mergeEnumStep_prefix ps acc with ⟨rest, hrest⟩
  rw [hrest]
  exact List.mem_append_left _ h

theorem mergeEnums_ne_nil {newEs oldEs : List (String × Enum)}
    (h : newEs ≠ [] ∨ oldEs ≠ []) : mergeEnums newEs oldEs ≠ [] := by
  rcases h with h | h
  · rcases foldl_mergeEnumStep_prefix oldEs newEs with ⟨rest, hrest⟩
    unfold mergeEnums
    rw [hrest]
    intro hc
    exact h (List.append_eq_nil.mp hc).1
  · cases oldEs with
    | nil => exact absurd rfl h
    | cons p ps =>
      cases newEs with
      | cons q qs =>
        rcases foldl_mergeEnumStep_prefix (p :: ps) (q :: qs) with ⟨rest, hrest⟩
        unfold mergeEnums
        rw [hrest]
        simp
      | nil =>
        unfold mergeEnums
        rw [List.foldl_cons]
        have hstep : mergeEnumStep [] p = [p] := by
          unfold mergeEnumStep
          simp [assocFind]
        rw [hstep]
        rcases foldl_mergeEnumStep_prefix ps [p] with ⟨rest, hrest⟩
        rw [hrest]
        simp

theorem foldl_mergeEnumStep_adds (ps : List (String × Enum)) :
    ∀ (p : String × Enum), p ∈ ps →
    (keysOf ps).Nodup → (descsOf ps).Nodup →
    ∀ acc, assocFind p.1 acc = none →
    acc.any (fun q => q.2.description == p.2.description) = false →
    assocFind p.1 (ps.foldl mergeEnumStep acc) = some p.2 := by
  induction ps with
  | nil => intro p hp; cases hp
  | cons r rs ih =>
    intro p hp hk hd acc hfind hany
    simp only [keysOf, List.map_cons, List.nodup_cons] at hk
    simp only [descsOf, List.map_cons, List.nodup_cons] at hd
    rw [List.foldl_cons]
    rcases List.mem_cons.mp hp with rfl | hp
    · have hstep : mergeEnumStep acc p = acc ++ [p] := by
        unfold mergeEnumStep
        rw [hfind, hany]
        simp
      rw [hstep]
      apply foldl_mergeEnumStep_find_some
      rw [assocFind_append_none _ hfind]
      simp [assocFind]
    · have hkr : r.1 ≠ p.1 := by
        intro he
        exact hk.1 (he ▸ (List.mem_map.mpr ⟨p, hp, rfl⟩))
      have hdr : r.2.description ≠ p.2.description := by
        intro he
        exact hd.1 (he ▸ (List.mem_map.mpr ⟨p, hp, rfl⟩))
      have hfind' : assocFind p.1 (mergeEnumStep acc r) = none := by
        rcases mergeEnumStep_cases acc r with h | h
        · rw [h]; exact hfind
        · rw [h, assocFind_append_none _ hfind]
          simp [assocFind, hkr]
      have hany' :
          (mergeEnumStep acc r).any
            (fun q => q.2.description == p.2.description) = false := by
        rcases mergeEnumStep_cases acc r with h | h
        · rw [h]; exact hany
        · rw [h, List.any_append, hany]
          simp [hdr]
      exact ih p hp hk.2 hd.2 (mergeEnumStep acc r) hfind' hany'

theorem foldl_mergeEnumStep_blocked (ps : List (String × Enum))
    (k d : String) :
    ∀ acc, assocFind k acc = none →
    (∃ q ∈ acc, q.2.description = d) →
    (∀ r ∈ ps, r.1 = k → r.2.description = d) →
    assocFind k (ps.foldl mergeEnumStep acc) = none := by
  induction ps with
  | nil => intro acc h _ _; simpa using h
  | cons r rs ih =>
    intro acc hfind hdesc hkey
    rw [List.foldl_cons]
    have hfind' : assocFind k (mergeEnumStep acc r) = none := by
      unfold mergeEnumStep
      split
      · exact hfind
      · split
        · exact hfind
        · rename_i hnone hany
          rw [assocFind_append_none _ hfind]
          simp only [assocFind]
          split
          · rename_i hrk
            exfalso
            rcases hdesc with ⟨q, hq, hqd⟩
            have hrd : r.2.description = d := hkey r (List.mem_cons_self r rs) hrk
            have : acc.any (fun q => q.2.description == r.2.description) = true :=
              List.any_eq_true.mpr ⟨q, hq, by simp [hqd, hrd]⟩
            simp [this] at hany
          · rfl
    have hdesc' : ∃ q ∈ mergeEnumStep acc r, q.2.description = d := by
      rcases hdesc with ⟨q, hq, hqd⟩
      rcases mergeEnumStep_cases acc r with h | h
      · refine ⟨q, ?_, hqd⟩
        rw [h]
        exact hq
      · refine ⟨q, ?_, hqd⟩
        rw [h]
        exact List.mem_append_left _ hq
    exact ih (mergeEnumStep acc r) hfind' hdesc'
      (fun r' hr' => hkey r' (List.mem_cons_of_mem _ hr'))

-- ## Nodup preservation through the enum merge

theorem mergeEnumStep_keys_nodup {acc : List (String × Enum)}
    (p : String × Enum) (h : (keysOf acc).Nodup) :
    (keysOf (mergeEnumStep acc p)).Nodup := by
  unfold mergeEnumStep
  split
  · exact h
  · split
    · exact h
    · rename_i hnone _
      have hk : p.1 ∉ keysOf acc := assocFind_eq_none_iff.mp hnone
      simp only [keysOf, List.map_append, List.map_cons, List.map_nil]
      simp [List.nodup_append, keysOf] at h hk ⊢
      exact ⟨h, hk⟩

theorem mergeEnumStep_descs_nodup {acc : List (String × Enum)}
    (p : String × Enum) (h : (descsOf acc).Nodup) :
    (descsOf (mergeEnumStep acc p)).Nodup := by
  unfold mergeEnumStep
  split
  · exact h
  · split
    · exact h
    · rename_i hany
      have hd : p.2.description ∉ descsOf acc := by
        intro hmem
        rcases List.mem_map.mp hmem with ⟨q, hq, hqd⟩
        exact hany (List.any_eq_true.mpr ⟨q, hq, by simp [hqd]⟩)
      simp only [descsOf, List.map_append, List.map_cons, List.map_nil]
      simp [List.nodup_append, descsOf] at h hd ⊢
      exact ⟨h, hd⟩

theorem foldl_mergeEnumStep_keys_nodup (ps : List (String × Enum)) :
    ∀ acc, (keysOf acc).Nodup →
    (keysOf (ps.foldl mergeEnumStep acc)).Nodup := by
  induction ps with
  | nil => exact fun acc h => h
  | cons r rs ih =>
    intro acc h
    rw [List.foldl_cons]
    exact ih _ (mergeEnumStep_keys_nodup r h)

theorem foldl_mergeEnumStep_descs_nodup (ps : List (String × Enum)) :
    ∀ acc, (descsOf acc).Nodup →
    (descsOf (ps.foldl mergeEnumStep acc)).Nodup := by
  induction ps with
  | nil => exact fun acc h => h
  | cons r rs ih =>
    intro acc h
    rw [List.foldl_cons]
    exact ih _ (mergeEnumStep_descs_nodup r h)

theorem mergeEnums_descs_nodup {newEs : List (String × Enum)}
    (oldEs : List (String × Enum)) (h : (descsOf newEs).Nodup) :
    (descsOf (mergeEnums newEs oldEs)).Nodup :=
  foldl_mergeEnumStep_descs_nodup oldEs newEs h

-- ## Field-merge lemmas

theorem mergedField_name (o : Option FieldType) (f : FieldType) :
    (mergedField o f).name = f.name := by
  unfold mergedField
  split
  · rfl
  · split
    · split
      · rfl
      · rfl
    · rfl

theorem mergedField_tag (o : Option FieldType) (f : FieldType) :
    (mergedField o f).tag = f.tag := by
  unfold mergedField
  split
  · rfl
  · split
    · split
      · rfl
      · rfl
    · rfl

theorem mergedField_type (o : Option FieldType) (f : FieldType) :
    (mergedField o f).type = f.type := by
  unfold mergedField
  split
  · rfl
  · split
    · split
      · rfl
      · rfl
    · rfl

theorem mergedField_enums_init (old f : FieldType) (hf : f.enums = none)
    (hold : enumEntries old ≠ []) :
    (mergedField (some old) f).enums =
      some (mergeEnums [] (enumEntries old)) := by
  obtain ⟨nm, tg, ty, en⟩ := f
  cases hf
  simp only [mergedField]
  rw [if_pos (by simpa [List.length_pos] using hold)]

theorem mergedField_enums_merge (old f : FieldType)
    (es : List (String × Enum)) (hf : f.enums = some es) :
    (mergedField (some old) f).enums =
      some (mergeEnums es (enumEntries old)) := by
  obtain ⟨nm, tg, ty, en⟩ := f
  cases hf
  rfl

theorem mergedField_enums_nonempty_right (old : FieldType) (f : FieldType)
    (hold : enumEntries old ≠ []) :
    enumEntries (mergedField (some old) f) ≠ [] := by
  obtain ⟨nm, tg, ty, en⟩ := f
  cases en with
  | none =>
    rw [enumEntries, mergedField_enums_init old _ rfl hold]
    exact mergeEnums_ne_nil (Or.inr hold)
  | some es =>
    rw [enumEntries, mergedField_enums_merge old _ es rfl]
    exact mergeEnums_ne_nil (Or.inr hold)

theorem mergedField_enums_nonempty_left (o : Option FieldType)
    (f : FieldType) (hf : enumEntries f ≠ []) :
    enumEntries (mergedField o f) ≠ [] := by
  cases o with
  | none => exact hf
  | some old =>
    obtain ⟨nm, tg, ty, en⟩ := f
    cases en with
    | none => exact absurd rfl hf
    | some es =>
      rw [enumEntries, mergedField_enums_merge old _ es rfl]
      have hes : es ≠ [] := hf
      exact mergeEnums_ne_nil (Or.inl hes)

theorem mergeStep_find_self (m : List (String × FieldType)) (f : FieldType) :
    assocFind f.name (mergeStep m f) =
      some (mergedField (assocFind f.name m) f) :=
  assocFind_setEntry_self m f.name _

theorem mergeStep_find_other (m : List (String × FieldType)) (f : FieldType)
    (n : String) (h : f.name ≠ n) :
    assocFind n (mergeStep m f) = assocFind n m :=
  assocFind_setEntry_other m f.name _ n h

theorem buildMap_append_singleton (fs : List FieldType) (g : FieldType) :
    buildMap (fs ++ [g]) = mergeStep (buildMap fs) g := by
  unfold buildMap
  rw [List.foldl_append]
  rfl

theorem mergedField_enums_keep (old f : FieldType) (hf : f.enums = none)
    (hold : ¬ 0 < (enumEntries old).length) :
    mergedField (some old) f = f := by
  obtain ⟨nm, tg, ty, en⟩ := f
  cases hf
  simp only [mergedField]
  rw [if_neg hold]

theorem buildMap_enums_nonempty (fs : List FieldType) (n : String) :
    (∃ g ∈ fs, g.name = n ∧ enumEntries g ≠ []) →
    ∃ old, assocFind n (buildMap fs) = some old ∧ enumEntries old ≠ [] := by
  induction fs using List.reverseRecOn with
  | nil =>
    rintro ⟨g, hg, _⟩
    simp at hg
  | append_singleton fs g ih =>
    rintro ⟨h', hmem, hname, hne⟩
    rcases List.mem_append.mp hmem with hmem | hmem
    · rcases ih ⟨h', hmem, hname, hne⟩ with ⟨old, hfind, hone⟩
      by_cases hgn : g.name = n
      · subst hgn
        refine ⟨mergedField (assocFind g.name (buildMap fs)) g, ?_, ?_⟩
        · rw [buildMap_append_singleton]
          exact mergeStep_find_self _ _
        · rw [hfind]
          exact mergedField_enums_nonempty_right old g hone
      · refine ⟨old, ?_, hone⟩
        rw [buildMap_append_singleton, mergeStep_find_other _ _ _ hgn]
        exact hfind
    · have hg : h' = g := by simpa using hmem
      subst hg
      subst hname
      refine ⟨mergedField (assocFind h'.name (buildMap fs)) h', ?_, ?_⟩
      · rw [buildMap_append_singleton]
        exact mergeStep_find_self _ _
      · exact mergedField_enums_nonempty_left _ h' hne

theorem buildMap_descs_nodup_aux (fs : List FieldType) :
    (∀ f ∈ fs, (descsOf (enumEntries f)).Nodup) →
    ∀ n ft, assocFind n (buildMap fs) = some ft →
    (descsOf (enumEntries ft)).Nodup := by
  induction fs using List.reverseRecOn with
  | nil =>
    intro _ n ft hfind
    simp [buildMap, assocFind] at hfind
  | append_singleton fs g ih =>
    intro hall n ft hfind
    rw [buildMap_append_singleton] at hfind
    by_cases hgn : g.name = n
    · subst hgn
      rw [mergeStep_find_self] at hfind
      injection hfind with hft
      subst hft
      have hgnd : (descsOf (enumEntries g)).Nodup :=
        hall g (List.mem_append_right _ (List.mem_cons_self g []))
      cases hold : assocFind g.name (buildMap fs) with
      | none =>
        simpa [mergedField] using hgnd
      | some old =>
        obtain ⟨nm, tg, ty, en⟩ := g
        cases en with
        | none =>
          by_cases hlen : 0 < (enumEntries old).length
          · rw [enumEntries,
              mergedField_enums_init old _ rfl
                (by simpa [List.length_pos] using hlen)]
            exact mergeEnums_descs_nodup _ (by simp [descsOf])
          · rw [mergedField_enums_keep old _ rfl hlen]
            exact hgnd
        | some es =>
          rw [enumEntries, mergedField_enums_merge old _ es rfl]
          exact mergeEnums_descs_nodup _ hgnd
    · rw [mergeStep_find_other _ _ _ hgn] at hfind
      exact ih (fun f hf => hall f (List.mem_append_left _ hf)) n ft hfind

theorem buildMap_last (fs : List FieldType) (n : String) (f : FieldType) :
    (fs.filter (fun g => g.name == n)).getLast? = some f →
    ∃ ft, assocFind n (buildMap fs) = some ft ∧ ft.name = f.name ∧
      ft.tag = f.tag ∧ ft.type = f.type ∧
      (f.enums = none →
        (∃ g ∈ fs, g.name = n ∧ enumEntries g ≠ []) →
        ∃ es, ft.enums = some es) := by
  induction fs using List.reverseRecOn with
  | nil =>
    intro h
    simp at h
  | append_singleton fs g ih =>
    intro h
    rw [List.filter_append] at h
    by_cases hgn : g.name = n
    · have hb : (g.name == n) = true := by
        simp [hgn]
      have hfil : List.filter (fun g' => g'.name == n) [g] = [g] := by
        simp [List.filter_cons, hb]
      rw [hfil, List.getLast?_concat] at h
      injection h with hf
      subst hf
      subst hgn
      refine ⟨mergedField (assocFind g.name (buildMap fs)) g, ?_,
        mergedField_name _ _, mergedField_tag _ _, mergedField_type _ _, ?_⟩
      · rw [buildMap_append_singleton]
        exact mergeStep_find_self _ _
      · intro hge hex
        rcases hex with ⟨h', hmem, hname, hne⟩
        rcases List.mem_append.mp hmem with hmem | hmem
        · rcases buildMap_enums_nonempty fs g.name ⟨h', hmem, hname, hne⟩
            with ⟨old, hold, holdne⟩
          rw [hold, mergedField_enums_init old g hge holdne]
          exact ⟨_, rfl⟩
        · have heq : h' = g := by simpa using hmem
          subst heq
          exact absurd (by simp [enumEntries, hge]) hne
    · have hb : (g.name == n) = false := by
        simp [hgn]
      have hfil : List.filter (fun g' => g'.name == n) [g] = [] := by
        simp [List.filter_cons, hb]
      rw [hfil, List.append_nil] at h
      rcases ih h with ⟨ft, hfind, hname, htag, htype, henum⟩
      refine ⟨ft, ?_, hname, htag, htype, ?_⟩
      · rw [buildMap_append_singleton, mergeStep_find_other _ _ _ hgn]
        exact hfind
      · intro hge hex
        rcases hex with ⟨h', hmem, hname', hne⟩
        rcases List.mem_append.mp hmem with hmem | hmem
        · exact henum hge ⟨h', hmem, hname', hne⟩
        · have : h' = g := by simpa using hmem
          subst this
          exact absurd hname' hgn

-- ## Type-mapper lemmas

theorem quickfixTypeCore_unknown (ty : String) (tag : Nat)
    (h : ty ∉ recognizedTypeNames) :
    quickfixTypeCore ty tag =
      .error ("Unknown type \x27" ++ ty ++ "\x27 for tag \x27" ++ Nat.repr tag ++ "\x27\n") := by
  unfold quickfixTypeCore
  split
  all_goals first
    | rfl
    | (exfalso; apply h; decide)

theorem quickfixTypeCore_ok_mem (ty : String) (tag : Nat) (bt : String)
    (h : quickfixTypeCore ty tag = .ok bt) : bt ∈ valueTypeNames := by
  unfold quickfixTypeCore at h
  split at h
  all_goals first
    | (injection h with h2; subst h2; decide)
    | (exact absurd h (by simp))

theorem quickfixValueType_outside (s : String) (h : s ∉ valueTypeNames) :
    quickfixValueType s = "" := by
  unfold quickfixValueType
  split
  all_goals first
    | rfl
    | (exfalso; apply h; decide)

-- ## Prefix helpers for constructor counting

theorem isPrefixOf_append_self (p t : List Char) :
    p.isPrefixOf (p ++ t) = true := by
  induction p with
  | nil => simp [List.isPrefixOf]
  | cons a as ih => simp [List.isPrefixOf, ih]

theorem fnp_slash (t : List Char) :
    funcNewChars.isPrefixOf ('/' :: t) = false := by
  simp [funcNewChars, List.isPrefixOf]

theorem fnp_t (t : List Char) :
    funcNewChars.isPrefixOf ('t' :: t) = false := by
  simp [funcNewChars, List.isPrefixOf]

theorem fnp_space (t : List Char) :
    funcNewChars.isPrefixOf (' ' :: t) = false := by
  simp [funcNewChars, List.isPrefixOf]

theorem fnp_tab (t : List Char) :
    funcNewChars.isPrefixOf ('\t' :: t) = false := by
  simp [funcNewChars, List.isPrefixOf]

theorem fnp_rbrace (t : List Char) :
    funcNewChars.isPrefixOf ('\x7d' :: t) = false := by
  simp [funcNewChars, List.isPrefixOf]

theorem fnp_nil : funcNewChars.isPrefixOf ([] : List Char) = false := by
  simp [funcNewChars, List.isPrefixOf]

theorem fnp_paren (t : List Char) :
    funcNewChars.isPrefixOf ('f' :: 'u' :: 'n' :: 'c' :: ' ' :: '(' :: t) = false := by
  simp [funcNewChars, List.isPrefixOf]

-- ## Sorting lemmas

theorem sortFields_chain (fts : List FieldType)
    (h : (fts.map FieldType.name).Nodup) :
    List.Chain' (fun a b : FieldType => a.name < b.name) (sortFields fts) := by
  have hs : List.Sorted (fun a b : FieldType => a.name ≤ b.name)
      (sortFields fts) := List.sorted_insertionSort _ fts
  have hperm : (sortFields fts).Perm fts := List.perm_insertionSort _ fts
  have hnd : ((sortFields fts).map FieldType.name).Nodup :=
    (List.Perm.nodup_iff (List.Perm.map _ hperm)).mpr h
  have hne : List.Pairwise (fun a b : FieldType => a.name ≠ b.name)
      (sortFields fts) := List.pairwise_map.mp hnd
  refine List.Pairwise.chain' (List.Pairwise.imp ?_ (List.Pairwise.and hs hne))
  rintro a b ⟨hle, hneq⟩
  exact lt_of_le_of_ne hle hneq

theorem sortFields_perm_eq (fts fts2 : List FieldType)
    (h : (fts.map FieldType.name).Nodup) (hperm : fts.Perm fts2) :
    sortFields fts2 = sortFields fts := by
  have h2 : (fts2.map FieldType.name).Nodup :=
    (List.Perm.nodup_iff (List.Perm.map _ hperm)).mp h
  have hp : (sortFields fts2).Perm (sortFields fts) :=
    ((List.perm_insertionSort _ fts2).trans hperm.symm).trans
      (List.perm_insertionSort _ fts).symm
  refine @List.eq_of_perm_of_sorted FieldType
      (fun a b : FieldType => a.name < b.name) _ _ _ hp ?_ ?_
  · exact List.chain'_iff_pairwise.mp (sortFields_chain fts2 h2)
  · exact List.chain'_iff_pairwise.mp (sortFields_chain fts h)

theorem eq_of_keysOf_nodup {κ α : Type} [DecidableEq κ]
    {l : List (κ × α)} {p q : κ × α} (h : (keysOf l).Nodup)
    (hp : p ∈ l) (hq : q ∈ l) (hk : p.1 = q.1) : p = q := by
  induction l with
  | nil => cases hp
  | cons r rs ih =>
    simp only [keysOf, List.map_cons, List.nodup_cons] at h
    rcases List.mem_cons.mp hp with rfl | hp' <;>
      rcases List.mem_cons.mp hq with rfl | hq'
    · rfl
    · exact absurd (List.mem_map.mpr ⟨q, hq', hk.symm⟩) h.1
    · exact absurd (List.mem_map.mpr ⟨p, hp', hk⟩) h.1
    · exact ih h.2 hp' hq'

-- ## Claim theorems

/-- C9: for the SecurityListUpdateReport wrapper, the allocating getter
`SecurityReportID` returns exactly the pair whose first component is a
freshly zero-initialized field wrapper after `GetSecurityReportID` has run
on it and whose second component is the error `GetSecurityReportID`
returns. -/
theorem securityReportID_refines_get (m : Message) :
    m.SecurityReportID = securityReportIDViaGet m := rfl

/-- C2: the type mapper is a deterministic pure function of the field's
declared type name and tag; "STRING" always maps to the string category
FIXString, and any name outside the recognized set yields the error naming
the offending type name and the field's tag. -/
theorem quickfixType_deterministic_total :
    (∀ f g : FieldType, f.type = g.type → f.tag = g.tag →
      quickfixType f = quickfixType g) ∧
    (∀ f : FieldType, f.type = "STRING" → quickfixType f = .ok "FIXString") ∧
    (∀ f : FieldType, f.type ∉ recognizedTypeNames →
      quickfixType f =
        .error ("Unknown type \x27" ++ f.type ++ "\x27 for tag \x27" ++
          Nat.repr f.tag ++ "\x27\n")) := by
  refine ⟨?_, ?_, ?_⟩
  · intro f g ht htag
    show quickfixTypeCore f.type f.tag = quickfixTypeCore g.type g.tag
    rw [ht, htag]
  · intro f ht
    show quickfixTypeCore f.type f.tag = _
    rw [ht]
    rfl
  · intro f h
    exact quickfixTypeCore_unknown f.type f.tag h

/-- Witness for C2: "STRING" maps to FIXString and "BOGUSTYPE" fails with
the error naming it and the tag. -/
theorem quickfixType_deterministic_total_witness :
    (FieldType.mk "Side" 54 "STRING" none).type = "STRING" ∧
    quickfixType ⟨"Side", 54, "STRING", none⟩ = .ok "FIXString" ∧
    "BOGUSTYPE" ∉ recognizedTypeNames ∧
    quickfixType ⟨"Bogus", 99, "BOGUSTYPE", none⟩ =
      .error ("Unknown type \x27BOGUSTYPE\x27 for tag \x2799\x27\n") :=
  ⟨rfl,
   quickfixType_deterministic_total.2.1 ⟨"Side", 54, "STRING", none⟩ rfl,
   by decide,
   quickfixType_deterministic_total.2.2 ⟨"Bogus", 99, "BOGUSTYPE", none⟩
     (by decide)⟩

/-- C10: `quickfixValueType` returns the empty string (not an error) for
names outside its five cases, and a non-empty value type for every base
type reachable from a successful `quickfixType` other than FIXUTCTimestamp,
so the empty-string outcome is unreachable in the field template whenever
type mapping succeeded. -/
theorem quickfixValueType_total_nonempty :
    (∀ s : String, s ∉ valueTypeNames → quickfixValueType s = "") ∧
    (∀ (f : FieldType) (bt : String), quickfixType f = .ok bt →
      bt ≠ "FIXUTCTimestamp" → quickfixValueType bt ≠ "") := by
  refine ⟨quickfixValueType_outside, ?_⟩
  intro f bt hok hne
  have hmem : bt ∈ valueTypeNames :=
    quickfixTypeCore_ok_mem f.type f.tag bt hok
  simp only [valueTypeNames, List.mem_cons, List.mem_singleton] at hmem
  rcases hmem with rfl | rfl | rfl | rfl | rfl | h
  · decide
  · decide
  · decide
  · exact absurd rfl hne
  · decide
  · simp at h

/-- Witness for C10: "BOGUS" yields the empty string; the successful base
type FIXInt yields a non-empty value type. -/
theorem quickfixValueType_total_nonempty_witness :
    ("BOGUS" ∉ valueTypeNames ∧ quickfixValueType "BOGUS" = "") ∧
    (quickfixType ⟨"NoOrders", 73, "INT", none⟩ = .ok "FIXInt" ∧
      "FIXInt" ≠ "FIXUTCTimestamp" ∧ quickfixValueType "FIXInt" ≠ "") :=
  ⟨⟨by decide, quickfixValueType_total_nonempty.1 "BOGUS" (by decide)⟩,
   ⟨rfl, by decide,
    quickfixValueType_total_nonempty.2 ⟨"NoOrders", 73, "INT", none⟩
      "FIXInt" rfl (by decide)⟩⟩

/-- C3: the enum emitter's output is not a function of the merged field set
alone: the same enum set presented in two iteration orders renders to
different bytes.  `genEnums` ranges over a Go map, whose iteration order is
randomized per run, so two runs on identical input can emit a field's enum
constants in different orders; the spec itself flags this as a correctness
gap (spec §9). -/
theorem genEnums_enum_order_dependent :
    (([("1", (⟨"1", "BUY"⟩ : Enum)), ("2", ⟨"2", "SELL"⟩)]).Perm
        [("2", (⟨"2", "SELL"⟩ : Enum)), ("1", ⟨"1", "BUY"⟩)]) ∧
    genEnumsChars [⟨"Side", 54, "CHAR",
        some [("1", ⟨"1", "BUY"⟩), ("2", ⟨"2", "SELL"⟩)]⟩] ≠
      genEnumsChars [⟨"Side", 54, "CHAR",
        some [("2", ⟨"2", "SELL"⟩), ("1", ⟨"1", "BUY"⟩)]⟩] :=
  ⟨List.Perm.swap _ _ _, by decide⟩

/-- C4: the merged field set is emitted strictly ordered by field name:
`sortFields`, applied by `main` before the three emitters iterate the list,
produces a strictly name-sorted permutation of the field set, and any
presentation order of the same set sorts to the same list. -/
theorem sortFields_sorted_emission (fts fts2 : List FieldType)
    (h : (fts.map FieldType.name).Nodup) (hperm : fts.Perm fts2) :
    List.Chain' (fun a b : FieldType => a.name < b.name) (sortFields fts) ∧
    (sortFields fts).Perm fts ∧
    sortFields fts2 = sortFields fts :=
  ⟨sortFields_chain fts h, List.perm_insertionSort _ fts,
    sortFields_perm_eq fts fts2 h hperm⟩

/-- Witness for C4 on a concrete two-field set presented in both orders. -/
theorem sortFields_sorted_emission_witness :
    (([⟨"BeginString", 8, "STRING", none⟩, ⟨"Account", 1, "STRING", none⟩]
        : List FieldType).map FieldType.name).Nodup ∧
    (([⟨"BeginString", 8, "STRING", none⟩, ⟨"Account", 1, "STRING", none⟩]
        : List FieldType).Perm
      [⟨"Account", 1, "STRING", none⟩, ⟨"BeginString", 8, "STRING", none⟩]) ∧
    (List.Chain' (fun a b : FieldType => a.name < b.name)
        (sortFields [⟨"BeginString", 8, "STRING", none⟩,
          ⟨"Account", 1, "STRING", none⟩]) ∧
      (sortFields [⟨"BeginString", 8, "STRING", none⟩,
          ⟨"Account", 1, "STRING", none⟩]).Perm
        [⟨"BeginString", 8, "STRING", none⟩,
          ⟨"Account", 1, "STRING", none⟩] ∧
      sortFields [⟨"Account", 1, "STRING", none⟩,
          ⟨"BeginString", 8, "STRING", none⟩] =
        sortFields [⟨"BeginString", 8, "STRING", none⟩,
          ⟨"Account", 1, "STRING", none⟩]) :=
  ⟨by decide, by decide,
   sortFields_sorted_emission _ _ (by decide) (by decide)⟩

/-- C1 counterexample: old = {"1" → (1,A), "2" → (2,A)} carries two entries
with the same description; new has no enums.  The old entry ("2",(2,A)) has
a value absent from new, and no enum of new carries its description, so the
claim requires it in the merged set — but the merge keeps only the first
old entry: the copy of ("1",(1,A)) blocks ("2",(2,A)) through the
description check against the already-augmented new set. -/
theorem mergeEnums_c1_counterexample :
    mergeEnums [] [("1", (⟨"1", "A"⟩ : Enum)), ("2", ⟨"2", "A"⟩)] =
      [("1", (⟨"1", "A"⟩ : Enum))] ∧
    assocFind "2"
      (mergeEnums [] [("1", (⟨"1", "A"⟩ : Enum)), ("2", ⟨"2", "A"⟩)]) =
      none := by
  decide

/-- C1 amended: additionally assuming the old enum set carries no two
entries with the same description (and that both enum sets are maps, with
no duplicate values): every enum entry of new is present unchanged in the
merged set, and an old entry whose value is absent from new is present
(with old's value and description) exactly when no enum of new carries its
description, and absent when one does. -/
theorem mergeEnums_spec (newEs oldEs : List (String × Enum))
    (hnk : (keysOf newEs).Nodup) (hok : (keysOf oldEs).Nodup)
    (hod : (descsOf oldEs).Nodup) :
    (∀ p ∈ newEs, assocFind p.1 (mergeEnums newEs oldEs) = some p.2) ∧
    (∀ p ∈ oldEs, assocFind p.1 newEs = none →
      ((∀ q ∈ newEs, q.2.description ≠ p.2.description) →
        assocFind p.1 (mergeEnums newEs oldEs) = some p.2) ∧
      ((∃ q ∈ newEs, q.2.description = p.2.description) →
        assocFind p.1 (mergeEnums newEs oldEs) = none)) := by
  constructor
  · intro p hp
    exact foldl_mergeEnumStep_find_some oldEs newEs
      (assocFind_of_mem_nodup hnk hp)
  · intro p hp habs
    constructor
    · intro hno
      apply foldl_mergeEnumStep_adds oldEs p hp hok hod newEs habs
      rw [List.any_eq_false]
      intro q hq
      simpa using hno q hq
    · rintro ⟨q, hq, hqd⟩
      apply foldl_mergeEnumStep_blocked oldEs p.1 p.2.description newEs habs
        ⟨q, hq, hqd⟩
      intro r hr hrk
      rw [eq_of_keysOf_nodup hok hr hp hrk]

/-- Witness for C1 (amended) on the spec §8 example: old has
{"1" → Buy, "2" → Sell}, new has {"1" → Buy, "3" → SellShort}; old's "2"
survives, and with new instead carrying description Sell under value "3",
old's "2" is dropped. -/
theorem mergeEnums_spec_witness :
    (keysOf [("1", (⟨"1", "Buy"⟩ : Enum)), ("3", ⟨"3", "SellShort"⟩)]).Nodup ∧
    (keysOf [("1", (⟨"1", "Buy"⟩ : Enum)), ("2", ⟨"2", "Sell"⟩)]).Nodup ∧
    (descsOf [("1", (⟨"1", "Buy"⟩ : Enum)), ("2", ⟨"2", "Sell"⟩)]).Nodup ∧
    ((∀ p ∈ [("1", (⟨"1", "Buy"⟩ : Enum)), ("3", ⟨"3", "SellShort"⟩)],
        assocFind p.1
          (mergeEnums [("1", (⟨"1", "Buy"⟩ : Enum)), ("3", ⟨"3", "SellShort"⟩)]
            [("1", (⟨"1", "Buy"⟩ : Enum)), ("2", ⟨"2", "Sell"⟩)]) = some p.2) ∧
      (∀ p ∈ [("1", (⟨"1", "Buy"⟩ : Enum)), ("2", ⟨"2", "Sell"⟩)],
        assocFind p.1
            [("1", (⟨"1", "Buy"⟩ : Enum)), ("3", ⟨"3", "SellShort"⟩)] = none →
        ((∀ q ∈ [("1", (⟨"1", "Buy"⟩ : Enum)), ("3", ⟨"3", "SellShort"⟩)],
            q.2.description ≠ p.2.description) →
          assocFind p.1
            (mergeEnums
              [("1", (⟨"1", "Buy"⟩ : Enum)), ("3", ⟨"3", "SellShort"⟩)]
              [("1", (⟨"1", "Buy"⟩ : Enum)), ("2", ⟨"2", "Sell"⟩)]) =
            some p.2) ∧
        ((∃ q ∈ [("1", (⟨"1", "Buy"⟩ : Enum)), ("3", ⟨"3", "SellShort"⟩)],
            q.2.description = p.2.description) →
          assocFind p.1
            (mergeEnums
              [("1", (⟨"1", "Buy"⟩ : Enum)), ("3", ⟨"3", "SellShort"⟩)]
              [("1", (⟨"1", "Buy"⟩ : Enum)), ("2", ⟨"2", "Sell"⟩)]) =
            none))) :=
  ⟨by decide, by decide, by decide,
   mergeEnums_spec
     [("1", (⟨"1", "Buy"⟩ : Enum)), ("3", ⟨"3", "SellShort"⟩)]
     [("1", (⟨"1", "Buy"⟩ : Enum)), ("2", ⟨"2", "Sell"⟩)]
     (by decide) (by decide) (by decide)⟩

/-- C8: merging preserves description-uniqueness — if every source field's
enum set carries pairwise-distinct descriptions, so does every field stored
in the merged map — and when a description occurs in both the old and the
new enum set, the merged set holds at the old entry's value exactly what
the new set holds there (newest wins, the old entry is not copied). -/
theorem mergeInvariant_descriptions :
    (∀ fs : List FieldType,
      (∀ f ∈ fs, (descsOf (enumEntries f)).Nodup) →
      ∀ n ft, assocFind n (buildMap fs) = some ft →
      (descsOf (enumEntries ft)).Nodup) ∧
    (∀ (newEs oldEs : List (String × Enum)) (p q : String × Enum),
      (keysOf oldEs).Nodup → p ∈ oldEs → q ∈ newEs →
      p.2.description = q.2.description →
      assocFind p.1 (mergeEnums newEs oldEs) = assocFind p.1 newEs) := by
  constructor
  · exact buildMap_descs_nodup_aux
  · intro newEs oldEs p q hok hp hq hd
    cases hfind : assocFind p.1 newEs with
    | some e => exact foldl_mergeEnumStep_find_some oldEs newEs hfind
    | none =>
      apply foldl_mergeEnumStep_blocked oldEs p.1 p.2.description newEs hfind
        ⟨q, hq, hd.symm⟩
      intro r hr hrk
      rw [eq_of_keysOf_nodup hok hr hp hrk]

/-- Witness for C8: a one-source merge keeps its duplicate-free enum
descriptions, and an old entry whose description Buy already occurs in the
new set is dropped (the merged set holds at its value what new holds:
nothing). -/
theorem mergeInvariant_descriptions_witness :
    (∀ f ∈ ([⟨"Side", 54, "CHAR",
        some [("1", ⟨"1", "BUY"⟩), ("2", ⟨"2", "SELL"⟩)]⟩] : List FieldType),
      (descsOf (enumEntries f)).Nodup) ∧
    assocFind "Side" (buildMap [⟨"Side", 54, "CHAR",
        some [("1", ⟨"1", "BUY"⟩), ("2", ⟨"2", "SELL"⟩)]⟩]) =
      some ⟨"Side", 54, "CHAR",
        some [("1", ⟨"1", "BUY"⟩), ("2", ⟨"2", "SELL"⟩)]⟩ ∧
    (descsOf (enumEntries (⟨"Side", 54, "CHAR",
        some [("1", ⟨"1", "BUY"⟩), ("2", ⟨"2", "SELL"⟩)]⟩ : FieldType))).Nodup ∧
    ((keysOf [("2", (⟨"2", "Buy"⟩ : Enum))]).Nodup ∧
      ("2", (⟨"2", "Buy"⟩ : Enum)) ∈ [("2", (⟨"2", "Buy"⟩ : Enum))] ∧
      ("1", (⟨"1", "Buy"⟩ : Enum)) ∈ [("1", (⟨"1", "Buy"⟩ : Enum))] ∧
      assocFind "2"
          (mergeEnums [("1", (⟨"1", "Buy"⟩ : Enum))]
            [("2", (⟨"2", "Buy"⟩ : Enum))]) =
        assocFind "2" [("1", (⟨"1", "Buy"⟩ : Enum))]) :=
  ⟨by decide, by decide,
   mergeInvariant_descriptions.1
     [⟨"Side", 54, "CHAR", some [("1", ⟨"1", "BUY"⟩), ("2", ⟨"2", "SELL"⟩)]⟩]
     (by decide) "Side"
     ⟨"Side", 54, "CHAR", some [("1", ⟨"1", "BUY"⟩), ("2", ⟨"2", "SELL"⟩)]⟩
     (by decide),
   by decide, by decide, by decide,
   mergeInvariant_descriptions.2 [("1", ⟨"1", "Buy"⟩)]
     [("2", ⟨"2", "Buy"⟩)] ("2", ⟨"2", "Buy"⟩) ("1", ⟨"1", "Buy"⟩)
     (by decide) (by decide) (by decide) rfl⟩

/-- C7: after processing the sources (their fields concatenated in argument
order), the map binds each name to a definition carrying the name, tag and
declared type of the last field definition with that name, and when that
last definition has no enum set while an earlier definition of the name has
a non-empty one, the stored definition has been given an enum set (created
empty and filled by the merge). -/
theorem buildMap_last_definition_wins (fs : List FieldType) (n : String)
    (f : FieldType)
    (h : (fs.filter (fun g => g.name == n)).getLast? = some f) :
    ∃ ft, assocFind n (buildMap fs) = some ft ∧ ft.name = f.name ∧
      ft.tag = f.tag ∧ ft.type = f.type ∧
      (f.enums = none →
        (∃ g ∈ fs, g.name = n ∧ enumEntries g ≠ []) →
        ∃ es, ft.enums = some es) :=
  buildMap_last fs n f h

/-- Witness for C7: two definitions of Side; the later one (type STRING, no
enums) wins for name/tag/type, and its stored enum set has been created. -/
theorem buildMap_last_definition_wins_witness :
    (([⟨"Side", 54, "CHAR", some [("1", ⟨"1", "BUY"⟩)]⟩,
        ⟨"Side", 54, "STRING", none⟩] : List FieldType).filter
        (fun g => g.name == "Side")).getLast? =
      some ⟨"Side", 54, "STRING", none⟩ ∧
    (∃ ft, assocFind "Side" (buildMap
          [⟨"Side", 54, "CHAR", some [("1", ⟨"1", "BUY"⟩)]⟩,
           ⟨"Side", 54, "STRING", none⟩]) = some ft ∧
      ft.name = "Side" ∧ ft.tag = 54 ∧ ft.type = "STRING" ∧
      ((none : Option (List (String × Enum))) = none →
        (∃ g ∈ ([⟨"Side", 54, "CHAR", some [("1", ⟨"1", "BUY"⟩)]⟩,
            ⟨"Side", 54, "STRING", none⟩] : List FieldType),
          g.name = "Side" ∧ enumEntries g ≠ []) →
        ∃ es, ft.enums = some es)) :=
  ⟨by decide,
   buildMap_last_definition_wins
     [⟨"Side", 54, "CHAR", some [("1", ⟨"1", "BUY"⟩)]⟩,
      ⟨"Side", 54, "STRING", none⟩] "Side"
     ⟨"Side", 54, "STRING", none⟩ (by decide)⟩

/-- C5: a field whose declared type maps to FIXUTCTimestamp renders to a
block with exactly two constructor declarations — the sub-second-precision
`New<Name>(val)` and the whole-second `New<Name>NoMillis(val)` — while a
field of any other successfully mapped category renders to a block with
exactly one constructor `New<Name>(val)`. -/
theorem fieldBlock_constructor_count (f : FieldType) :
    (quickfixType f = .ok "FIXUTCTimestamp" →
      ∃ ls, fieldBlockLines f = .ok ls ∧
        ls.countP (fun l => funcNewChars.isPrefixOf l) = 2 ∧
        tsCtorLine f.name.data ∈ ls ∧ tsNoMillisCtorLine f.name.data ∈ ls) ∧
    (∀ bt, quickfixType f = .ok bt → bt ≠ "FIXUTCTimestamp" →
      ∃ ls, fieldBlockLines f = .ok ls ∧
        ls.countP (fun l => funcNewChars.isPrefixOf l) = 1 ∧
        ctorLine f.name.data (quickfixValueType bt).data ∈ ls) := by
  constructor
  · intro h
    refine ⟨tsBlockLines f "FIXUTCTimestamp", ?_, ?_, ?_, ?_⟩
    · simp [fieldBlockLines, h]
    · simp [tsBlockLines, blockHeadLines, List.countP_cons, List.countP_append,
        fnp_slash, fnp_t, fnp_space, fnp_tab, fnp_rbrace, fnp_nil, fnp_paren,
        tsCtorLine, tsNoMillisCtorLine, isPrefixOf_append_self]
    · simp [tsBlockLines, blockHeadLines]
    · simp [tsBlockLines, blockHeadLines]
  · intro bt hok hbt
    refine ⟨plainBlockLines f bt, ?_, ?_, ?_⟩
    · simp only [fieldBlockLines, hok]
      rw [if_neg hbt]
    · simp [plainBlockLines, blockHeadLines, List.countP_cons,
        List.countP_append, fnp_slash, fnp_t, fnp_space, fnp_tab, fnp_rbrace,
        fnp_nil, fnp_paren, ctorLine, isPrefixOf_append_self]
    · simp [plainBlockLines, blockHeadLines]

/-- Witness for C5: the UTCTIMESTAMP field SendingTime renders two
constructors; the CHAR field Side renders one. -/
theorem fieldBlock_constructor_count_witness :
    (quickfixType ⟨"SendingTime", 52, "UTCTIMESTAMP", none⟩ =
        .ok "FIXUTCTimestamp" ∧
      ∃ ls, fieldBlockLines ⟨"SendingTime", 52, "UTCTIMESTAMP", none⟩ =
          .ok ls ∧
        ls.countP (fun l => funcNewChars.isPrefixOf l) = 2 ∧
        tsCtorLine (FieldType.mk "SendingTime" 52 "UTCTIMESTAMP" none).name.data
          ∈ ls ∧
        tsNoMillisCtorLine
          (FieldType.mk "SendingTime" 52 "UTCTIMESTAMP" none).name.data ∈ ls) ∧
    (quickfixType ⟨"Side", 54, "CHAR", none⟩ = .ok "FIXString" ∧
      "FIXString" ≠ "FIXUTCTimestamp" ∧
      ∃ ls, fieldBlockLines ⟨"Side", 54, "CHAR", none⟩ = .ok ls ∧
        ls.countP (fun l => funcNewChars.isPrefixOf l) = 1 ∧
        ctorLine (FieldType.mk "Side" 54 "CHAR" none).name.data
          (quickfixValueType "FIXString").data ∈ ls) :=
  ⟨⟨rfl,
    (fieldBlock_constructor_count ⟨"SendingTime", 52, "UTCTIMESTAMP", none⟩).1
      rfl⟩,
   ⟨rfl, by decide,
    (fieldBlock_constructor_count ⟨"Side", 54, "CHAR", none⟩).2 "FIXString"
      rfl (by decide)⟩⟩

/-- C6: the generator's exit code is 0 exactly when all three emission
steps succeed; all three outcomes are offered to the error handler, whose
collected error list holds every failure (no emitter is skipped after an
earlier failure); with no dictionary argument the process exits with the
distinct usage code 2. -/
theorem runGenerator_exit_codes (args : List String)
    (tagErr fieldErr enumErr : Option String) (hne : args ≠ []) :
    ((runGenerator args tagErr fieldErr enumErr).1 = 0 ↔
      tagErr = none ∧ fieldErr = none ∧ enumErr = none) ∧
    (runGenerator args tagErr fieldErr enumErr).2 =
      [tagErr, fieldErr, enumErr].filterMap id ∧
    (runGenerator args tagErr fieldErr enumErr).1 ≠ usageExitCode ∧
    (runGenerator [] tagErr fieldErr enumErr).1 = usageExitCode := by
  cases tagErr <;> cases fieldErr <;> cases enumErr <;>
    simp [runGenerator, ErrorHandler.handle, usageExitCode, hne]

/-- Witness for C6: one failing emitter out of three yields exit code 1
with exactly that failure collected; the empty argument list yields the
usage code. -/
theorem runGenerator_exit_codes_witness :
    (["FIX50SP1.xml"] ≠ ([] : List String)) ∧
    (((runGenerator ["FIX50SP1.xml"] none (some "permission denied") none).1 =
        0 ↔
      (none : Option String) = none ∧
        (some "permission denied" : Option String) = none ∧
        (none : Option String) = none) ∧
    (runGenerator ["FIX50SP1.xml"] none (some "permission denied") none).2 =
      ([none, some "permission denied", none] : List (Option String)).filterMap
        id ∧
    (runGenerator ["FIX50SP1.xml"] none (some "permission denied") none).1 ≠
      usageExitCode ∧
    (runGenerator [] none (some "permission denied") none).1 = usageExitCode) :=
  ⟨by decide,
   runGenerator_exit_codes ["FIX50SP1.xml"] none (some "permission denied")
     none (by decide)⟩
